import Mathlib

/-!
Shallow embedding of `q2_differential/_model.py` (q2-differential).

The module binds a count table and sample metadata into the numeric data
dictionary and model specification consumed by an external Bayesian sampler.
We embed the pure data-binding logic:

* `relabel` — `_model.py` lines 33–37: sklearn `LabelEncoder` fit/transform.
  `LabelEncoder.fit` sets `classes_ = np.unique(x)`, i.e. the lexicographically
  sorted list of distinct labels; `transform` maps a label to its index in
  `classes_` and raises `ValueError` on an unseen label (modelled by
  `leTransform` returning `none`).
* `normalizationTotals` / `normalizationFunc` — `_normalization_func`,
  lines 12–21.  The `median_ratios` branch references the undefined name
  `counts` (line 15) and therefore raises `NameError` on every call; the
  `depth` branch computes `np.log(table.sum(axis='sample'))`; any other mode
  raises `ValueError`.  The combinatorial part (which branch, and the
  per-sample totals) is kept computable; the single real-valued step
  (elementwise `log`) is applied on top in `normalizationFunc`.
* `diseaseSingleBind` — `DiseaseSingle.__init__`, lines 54–121: reindexes
  metadata to the table's sample order (`metadata.loc[table.ids()]`, which
  raises `KeyError` when an id is missing), label-encodes the match-id, batch
  and category columns, computes normalization, and assembles the `param_dict`
  with all categorical ids shifted by +1 and
  `reference = encoder.transform([reference]) + 1`.
* `deseq2Bind` — `DESeq2.__init__`, lines 150–205: takes the category column
  in metadata row order (no reindexing), resolves `other` as
  `list(set(cats) - {reference})[0]` *before* the `None`-reference default is
  applied, then codes `M = (cats != reference) + 1`.
* `singleDESeq2Bind` — `SingleDESeq2.__init__`, lines 208–265: same as
  `DESeq2`, except that line 237 recomputes
  `other = list(set(cats) - {reference})[0]` *after* `cats` has been replaced
  by the integer code array, so `other` becomes an integer group code, which
  then appears in the synthetic feature label `f'log({other} / {reference})'`.
* `diseaseSingleSpec` — the `specify_model` call of `DiseaseSingle`,
  lines 123–147 (params / dims / coords).

Sample metadata is a list of rows (unique sample id plus the three design
columns used by the models); a count table is feature-major rows of
per-sample counts.  Real-valued dictionary entries (`slog`, `control_loc`,
the fixed scale constants) are carried by `normalizationFunc` and plain
constants in the source; the `Nat`-valued part of each `param_dict` is kept
in a decidable structure so that concrete instances evaluate.
-/

/-- A biom count table: feature (observation) ids, sample ids, and a
feature-major count matrix (`counts[f][s]` = count of feature `f` in
sample `s`). -/
structure CountTable where
  featureIds : List String
  sampleIds : List String
  counts : List (List Nat)
deriving DecidableEq

/-- One metadata row: the sample id (index) and the three design columns the
models read (`category_column`, `match_ids_column`, `batch_column`). -/
structure SampleRow where
  sampleId : String
  category : String
  matchId : String
  batch : String
deriving DecidableEq

/-- Index of the first occurrence of `a` in `l` (`l.length` when absent);
the position `LabelEncoder.transform` returns for a label of `classes_`. -/
def idxOf (l : List String) (a : String) : Nat :=
  match l with
  | [] => 0
  | b :: bs => if b = a then 0 else idxOf bs a + 1

/-- Strict code-point lexicographic comparison of character lists — the
order `np.unique` sorts Unicode strings by. -/
def charListLt : List Char → List Char → Bool
  | [], [] => false
  | [], _ :: _ => true
  | _ :: _, [] => false
  | a :: as, b :: bs => if a < b then true else if b < a then false else charListLt as bs

/-- Comparison a ≤ b on strings by code points (kernel-computable form of
the lexicographic order). -/
def strLe (a b : String) : Prop := charListLt b.data a.data = false

instance : DecidableRel strLe := fun a b =>
  inferInstanceAs (Decidable (charListLt b.data a.data = false))

/-- Model of `LabelEncoder.classes_`: `np.unique` of the fitted labels,
i.e. the lexicographically sorted list of distinct labels. -/
def leClasses (x : List String) : List String :=
  List.insertionSort strLe x.dedup

/-- Model of `LabelEncoder.transform` on a single label: its index in
`classes_`; `none` models the `ValueError` sklearn raises for an unseen
label. -/
def leTransform (x : List String) (l : String) : Option Nat :=
  if l ∈ leClasses x then some (idxOf (leClasses x) l) else none

/-- Embedding of `relabel` (lines 33–37): fit a `LabelEncoder` on `x` and
transform `x`, returning the zero-based ids together with `classes_`. -/
def relabel (x : List String) : List Nat × List String :=
  (x.map (fun l => idxOf (leClasses x) l), leClasses x)

/-- Failure modes of `_normalization_func`: the `median_ratios` branch dies
with `NameError` (undefined `counts`, line 15); an unknown mode raises
`ValueError` (line 20). -/
inductive NormErr where
  | nameError : NormErr
  | valueError : NormErr
deriving DecidableEq

/-- Per-sample totals (the table summed along the sample axis), in table
sample order. -/
def depthTotals (tbl : CountTable) : List Nat :=
  (List.range tbl.sampleIds.length).map
    (fun s => (tbl.counts.map (fun row => row.getD s 0)).sum)

/-- The branch structure and integer content of `_normalization_func`
(lines 12–21): `median_ratios` always fails (`counts` is undefined),
`depth` yields the per-sample totals (to be logged), anything else raises. -/
def normalizationTotals (tbl : CountTable) (norm : String) : Except NormErr (List Nat) :=
  if norm = "median_ratios" then .error .nameError
  else if norm = "depth" then .ok (depthTotals tbl)
  else .error .valueError

/-- The function `_normalization_func` itself: on the `depth` branch it returns
`np.log` of the per-sample totals (line 18).  `np.log 0` yields `-inf`
without raising; the zero-total case is discussed at the theorems. -/
noncomputable def normalizationFunc (tbl : CountTable) (norm : String) :
    Except NormErr (List Real) :=
  (normalizationTotals tbl norm).map (fun ts => ts.map (fun t : Nat => Real.log (t : Real)))

/-- Embedding of the reindex `metadata.loc[table.ids()]` (line 81): select the metadata rows in the
table's sample order; `none` models the pandas `KeyError` raised when some
table sample id has no metadata row.  Metadata sample ids are assumed
unique (the first matching row is taken). -/
def reindexMeta (meta : List SampleRow) (ids : List String) : Option (List SampleRow) :=
  match ids with
  | [] => some []
  | sid :: rest =>
    match meta.find? (fun r => r.sampleId == sid), reindexMeta meta rest with
    | some r, some rs => some (r :: rs)
    | _, _ => none

/-- The `Nat`-valued content of `DiseaseSingle`'s `param_dict`
(lines 106–121).  The real-valued entries (`slog`, `control_loc`,
`control_scale`, `batch_scale`, `diff_scale`, `disp_scale`) are carried by
`normalizationFunc` and fixed constants in the source and are omitted here
to keep the dictionary decidable. -/
structure DiseaseParamDict where
  C : Nat
  N : Nat
  B : Nat
  D : Nat
  reference : Nat
  disease_ids : List Nat
  cc_ids : List Nat
  batch_ids : List Nat
deriving DecidableEq

/-- Data binding of `DiseaseSingle.__init__` (lines 81–121): reindex metadata to
table sample order (`KeyError` → `none`), label-encode match ids, batches and
categories, run normalization, then build `param_dict` with every id array
shifted by +1 and `reference = transform([reference]) + 1` (a `ValueError`
on an unseen reference → `none`). -/
def diseaseSingleBind (tbl : CountTable) (meta : List SampleRow)
    (reference : String) (norm : String) : Option DiseaseParamDict :=
  match reindexMeta meta tbl.sampleIds with
  | none => none
  | some md =>
    let caseIds := (relabel (md.map SampleRow.matchId)).1
    let batchIds := (relabel (md.map SampleRow.batch)).1
    let diseaseIds := (relabel (md.map SampleRow.category)).1
    match normalizationTotals tbl norm with
    | .error _ => none
    | .ok _ =>
      match leTransform (md.map SampleRow.category) reference with
      | none => none
      | some refIdx =>
        some { C := md.length / 2
               N := md.length
               B := batchIds.dedup.length
               D := diseaseIds.dedup.length
               reference := refIdx + 1
               disease_ids := diseaseIds.map (· + 1)
               cc_ids := caseIds.map (· + 1)
               batch_ids := batchIds.map (· + 1) }

/-- Embedding of `other = list(set(cats) - {reference})[0]` (lines 174 / 233).  Python's
set iteration order is unspecified; we model it as first-occurrence order.
Every property proved about this definition (emptiness, uniqueness when two
categories exist, membership) is independent of that order. -/
def deseq2Other (cats : List String) (reference : Option String) : Option String :=
  (cats.dedup.filter (fun c => decide (some c ≠ reference))).head?

/-- Embedding of the None-reference default `reference = cats[0]`
(lines 175–176 / 234–235). -/
def deseq2ResolveRef (cats : List String) (reference : Option String) : Option String :=
  match reference with
  | some r => some r
  | none => cats.head?

/-- The group-code array `M`, i.e.
`cats = (cats.values != reference).astype(np.int64) + 1` (lines 177 / 236). -/
def deseq2M (cats : List String) (ref : String) : List Nat :=
  cats.map (fun c => (if c ≠ ref then 1 else 0) + 1)

/-- The `Nat`/label-valued content bound by `DESeq2.__init__`: the `M` array
of `param_dict` and the `groups` coordinate `[reference, other]`
(lines 181–201); `slog`, `control_loc`, `control_scale` are real-valued and
carried by `normalizationFunc` and constants. -/
structure DESeq2Dict where
  M : List Nat
  groups : List String
deriving DecidableEq

/-- Data binding of `DESeq2.__init__` (lines 173–201).  The category column is
taken in metadata row order — there is no reindexing to the table's sample
order.  `other` is resolved *before* the `None`-reference default; an empty
remaining set raises `IndexError` (→ `none`), a bad normalization mode
raises (→ `none`). -/
def deseq2Bind (tbl : CountTable) (meta : List SampleRow)
    (reference : Option String) (norm : String) : Option DESeq2Dict :=
  let cats := meta.map SampleRow.category
  match deseq2Other cats reference with
  | none => none
  | some other =>
    match deseq2ResolveRef cats reference with
    | none => none
    | some ref =>
      match normalizationTotals tbl norm with
      | .error _ => none
      | .ok _ => some { M := deseq2M cats ref, groups := [ref, other] }

/-- CPython iterates a set of small non-negative ints in ascending order
(small ints hash to themselves): `list(set(M))` for the code array `M`. -/
def pySmallIntSetList (l : List Nat) : List Nat :=
  List.insertionSort (fun a b => a ≤ b) l.dedup

/-- What `SingleDESeq2.__init__` binds: the `M` array plus the `groups` and
`features` coordinates of its `specify_model` call (lines 241–261). -/
structure SingleDESeq2Model where
  M : List Nat
  groups : List String
  features : List String
deriving DecidableEq

/-- Data binding of `SingleDESeq2.__init__` (lines 232–261).  Identical to
`DESeq2` up to `M`; then line 237 recomputes
`other = list(set(cats) - {reference})[0]` where `cats` is by now the
*integer* code array and `{reference}` is a string (or `None`), so nothing
is removed and `other` becomes the smallest group code present.  That
integer is what appears in the `groups` coordinate and in the synthetic
feature label `f'log({other} / {reference})'` (line 259). -/
def singleDESeq2Bind (tbl : CountTable) (meta : List SampleRow)
    (reference : Option String) (norm : String) : Option SingleDESeq2Model :=
  let cats := meta.map SampleRow.category
  match deseq2Other cats reference with
  | none => none
  | some _ =>
    match deseq2ResolveRef cats reference with
    | none => none
    | some ref =>
      let M := deseq2M cats ref
      match (pySmallIntSetList M).head? with
      | none => none
      | some otherInt =>
        match normalizationTotals tbl norm with
        | .error _ => none
        | .ok _ =>
          some { M := M
                 groups := [ref, toString otherInt]
                 features := ["log(" ++ toString otherInt ++ " / " ++ ref ++ ")"] }

/-- A `specify_model` call: parameter names, named axes per variable, axis
coordinate labels, and the diagnostics configuration. -/
structure ModelSpec where
  params : List String
  dims : List (String × List String)
  coords : List (String × List String)
  include_observed_data : Bool
  posterior_predictive : String
  log_likelihood : String
deriving DecidableEq

/-- The `specify_model` call of `DiseaseSingle` (lines 123–147), as written:
note that `dims` lists `disp_scale` — a scalar data entry — with axes
`(feature, disease_ids)`, while the sampled parameter `disease_disp` gets no
`dims` entry at all. -/
def diseaseSingleSpec (diseaseClasses : List String) (sampleNames : List String) : ModelSpec :=
  { params := ["a0", "a1", "a2", "diff", "disease_disp"]
    dims := [("a0", ["feature"]), ("a1", ["feature"]), ("a2", ["feature"]),
             ("diff", ["feature", "disease_ids"]),
             ("disp_scale", ["feature", "disease_ids"]),
             ("log_lhood", ["tbl_sample"]), ("y_predict", ["tbl_sample"]),
             ("y", ["tbl_sample"])]
    coords := [("disease_ids", diseaseClasses),
               ("feature", ["log_fold_change"]),
               ("tbl_sample", sampleNames)]
    include_observed_data := true
    posterior_predictive := "y_predict"
    log_likelihood := "log_lhood" }

/-- Statement that the minimum id over observed categories is 1: every
entry is at least 1 and, as soon as any category is observed, the value 1
is attained. -/
def oneBasedIds (l : List Nat) : Prop :=
  (∀ v ∈ l, 1 ≤ v) ∧ (l ≠ [] → 1 ∈ l)

/-- Returns `true` exactly when `_normalization_func` returns without
raising. -/
def normIsOk : Except NormErr (List Real) → Bool
  | .ok _ => true
  | .error _ => false

/-- One feature, two samples; sample `s1` has total count `0`. -/
def tblZ : CountTable := ⟨["f1"], ["s1", "s2"], [[0, 10]]⟩

/-- The spec's §8 depth example: counts `[[10,0],[0,10]]`, both totals `10`. -/
def tblD : CountTable := ⟨["f1", "f2"], ["s1", "s2"], [[10, 0], [0, 10]]⟩

/-- A one-feature table over samples `s1`, `s2`. -/
def tblW : CountTable := ⟨["f1"], ["s1", "s2"], [[5, 5]]⟩

/-- Metadata for `tblW`: one matched pair, one batch, categories
`Healthy` / `Disease`. -/
def metaW : List SampleRow :=
  [⟨"s1", "Healthy", "m1", "b1"⟩, ⟨"s2", "Disease", "m1", "b1"⟩]

/-- The `param_dict` `DiseaseSingle` builds on `tblW` / `metaW` with
reference `Healthy` (classes sort to `[Disease, Healthy]`). -/
def dW : DiseaseParamDict := ⟨1, 2, 1, 2, 2, [2, 1], [1, 1], [1, 1]⟩

/-- A table whose sample order `[s1, s2]` is the reverse of `metaSwapped`'s
row order. -/
def tblA : CountTable := ⟨["f1"], ["s1", "s2"], [[3, 4]]⟩

/-- Same samples as `tblA` but listed in the opposite order. -/
def tblB : CountTable := ⟨["f1"], ["s2", "s1"], [[4, 3]]⟩

/-- Metadata rows in the order `[s2, s1]`, i.e. not in `tblA`'s sample
order; `s2` has category `catB`, `s1` has `catA`. -/
def metaSwapped : List SampleRow :=
  [⟨"s2", "catB", "m1", "b1"⟩, ⟨"s1", "catA", "m1", "b1"⟩]

/-- A table containing a sample id (`sX`) that has no metadata row in
`metaW`. -/
def tblMiss : CountTable := ⟨["f1"], ["s1", "sX"], [[1, 2]]⟩

/-- Three samples with three distinct category values `a`, `b`, `c`. -/
def meta3 : List SampleRow :=
  [⟨"s1", "a", "m1", "b1"⟩, ⟨"s2", "b", "m1", "b1"⟩, ⟨"s3", "c", "m2", "b1"⟩]

/-- The table matching `meta3`. -/
def tbl3 : CountTable := ⟨["f1"], ["s1", "s2", "s3"], [[1, 2, 3]]⟩

/-- The dictionary `DESeq2` builds on `metaSwapped` with reference `Zebra`,
a label absent from the categories. -/
def dAbs : DESeq2Dict := ⟨[2, 2], ["Zebra", "catB"]⟩

/-- The dictionary `DESeq2` builds on `metaSwapped` with reference `catA`. -/
def dSw : DESeq2Dict := ⟨[2, 1], ["catA", "catB"]⟩

/-- The dictionary `DESeq2` builds on `metaW` with reference `Healthy`. -/
def dDW : DESeq2Dict := ⟨[1, 2], ["Healthy", "Disease"]⟩

theorem mem_leClasses {a : String} {x : List String} : a ∈ leClasses x ↔ a ∈ x := by
  unfold leClasses
  rw [(List.perm_insertionSort _ _).mem_iff, List.mem_dedup]

theorem nodup_leClasses (x : List String) : (leClasses x).Nodup :=
  (List.perm_insertionSort _ _).nodup_iff.mpr x.nodup_dedup

theorem getElem?_idxOf {l : List String} {a : String} (h : a ∈ l) :
    l[idxOf l a]? = some a := by
  induction l with
  | nil => cases h
  | cons b bs ih =>
    by_cases hba : b = a
    · simp [idxOf, hba]
    · rcases List.mem_cons.mp h with h' | h'
      · exact absurd h'.symm hba
      · simpa [idxOf, hba] using ih h'

theorem relabel_ids_mem_zero {x : List String} (hx : x ≠ []) : 0 ∈ (relabel x).1 := by
  have hcl : leClasses x ≠ [] := by
    intro hnil
    have hperm := List.perm_insertionSort strLe x.dedup
    rw [leClasses] at hnil
    rw [hnil] at hperm
    exact hx ((List.dedup_eq_nil x).mp hperm.symm.eq_nil)
  obtain ⟨c, cs, hc⟩ := List.exists_cons_of_ne_nil hcl
  have hcx : c ∈ x := mem_leClasses.mp (hc ▸ List.mem_cons_self c cs)
  refine List.mem_map.mpr ⟨c, hcx, ?_⟩
  rw [hc]
  simp [idxOf]

theorem oneBased_relabelShift (x : List String) :
    oneBasedIds ((relabel x).1.map (· + 1)) := by
  constructor
  · intro v hv
    obtain ⟨u, _, hu⟩ := List.mem_map.mp hv
    omega
  · intro hne
    have hx : x ≠ [] := by
      intro h
      simp [relabel, h] at hne
    exact List.mem_map.mpr ⟨0, relabel_ids_mem_zero hx, rfl⟩

theorem leTransform_eq_none {x : List String} {r : String} (h : r ∉ x) :
    leTransform x r = none := by
  unfold leTransform
  rw [if_neg]
  intro hmem
  exact h (mem_leClasses.mp hmem)

theorem reindexMeta_eq_none {meta : List SampleRow} {ids : List String} {sid : String}
    (hmem : sid ∈ ids) (hfind : meta.find? (fun r => r.sampleId == sid) = none) :
    reindexMeta meta ids = none := by
  induction ids with
  | nil => cases hmem
  | cons i rest ih =>
    rcases List.mem_cons.mp hmem with h' | h'
    · subst h'
      simp [reindexMeta, hfind]
    · rw [reindexMeta, ih h']
      cases hf : meta.find? (fun r => r.sampleId == i) <;> simp

theorem normalizationTotals_depth (tbl : CountTable) :
    normalizationTotals tbl "depth" = .ok (depthTotals tbl) := by
  simp [normalizationTotals]

/-- Claim C3: In mode `median_ratios`, `_normalization_func` never computes
the median-of-ratios offsets the spec describes: line 15 references the
undefined name `counts`, so every call raises `NameError`, for every count
table. -/
theorem median_ratios_raises (tbl : CountTable) :
    normalizationFunc tbl "median_ratios" = .error .nameError := by
  simp [normalizationFunc, normalizationTotals, Except.map]

/-- Claim C4, amended: In mode `depth`, `_normalization_func` returns the
natural log of each sample's total count, in table sample order; in
particular when every sample totals the same positive constant `T`, every
offset equals `log T`.  (A zero-total sample does *not* raise: see the
counterexample theorem.) -/
theorem depth_normalization (tbl : CountTable) (T : Nat) (hT : 0 < T)
    (h : depthTotals tbl = List.replicate tbl.sampleIds.length T) :
    normalizationFunc tbl "depth" =
      .ok (List.replicate tbl.sampleIds.length (Real.log T)) := by
  simp [normalizationFunc, normalizationTotals, h, List.map_replicate, Except.map]

/-- Witness for C4 on the spec's own example table `[[10,0],[0,10]]`. -/
theorem depth_normalization_witness :
    normalizationFunc tblD "depth" =
      .ok (List.replicate tblD.sampleIds.length (Real.log (10 : Nat))) :=
  depth_normalization tblD 10 (by decide) (by decide)

/-- Claim C4 counterexample: Sample `s1` of `tblZ` has total count `0`, yet
the depth normalization raises no `DomainError`: the call returns
successfully (numpy's `log 0` silently yields `-inf`). -/
theorem depth_zero_total_no_error :
    normIsOk (normalizationFunc tblZ "depth") = true := by
  simp [normalizationFunc, normalizationTotals, normIsOk, Except.map]

/-- Claim C7: The encoder round-trips: `classes[ids[i]] = labels[i]` at every
position, and encoding the identical sequence twice yields identical ids
and classes (the embedding of `relabel` is a pure function of its input,
as `LabelEncoder.fit`/`np.unique` are deterministic). -/
theorem relabel_roundtrip :
    (∀ (labels : List String) (i : Nat), i < labels.length →
        ((relabel labels).2)[((relabel labels).1).getD i 0]? = labels[i]?) ∧
    (∀ labels : List String, relabel labels = relabel labels) := by
  refine ⟨fun labels i h => ?_, fun _ => rfl⟩
  have hval : ((relabel labels).1).getD i 0 = idxOf (leClasses labels) labels[i] := by
    simp [relabel, List.getD_eq_getElem?_getD, List.getElem?_map,
      List.getElem?_eq_getElem h]
  rw [hval, List.getElem?_eq_getElem h]
  exact getElem?_idxOf (mem_leClasses.mpr (labels.getElem_mem h))

/-- Witness for C7 at `labels = [Healthy, Disease, Healthy]`, `i = 1`. -/
theorem relabel_roundtrip_witness :
    ((relabel ["Healthy", "Disease", "Healthy"]).2)[((relabel
      ["Healthy", "Disease", "Healthy"]).1).getD 1 0]?
      = ["Healthy", "Disease", "Healthy"][1]? :=
  relabel_roundtrip.1 ["Healthy", "Disease", "Healthy"] 1 (by decide)

/-- Claim C8: The `specify_model` call of `DiseaseSingle` names the parameters
`{a0, a1, a2, diff, disease_disp}` and labels the `disease_ids` axis with
the encoder's classes, but its `dims` give the axis pair
`(feature, disease_ids)` to `diff` and to the *data scalar* `disp_scale`,
leaving the sampled parameter `disease_disp` with no dims entry at all. -/
theorem disease_spec_dims (cs ss : List String) :
    (diseaseSingleSpec cs ss).params = ["a0", "a1", "a2", "diff", "disease_disp"] ∧
    (diseaseSingleSpec cs ss).dims.lookup "diff" = some ["feature", "disease_ids"] ∧
    (diseaseSingleSpec cs ss).dims.lookup "disease_disp" = none ∧
    (diseaseSingleSpec cs ss).dims.lookup "disp_scale" = some ["feature", "disease_ids"] ∧
    (diseaseSingleSpec cs ss).coords.lookup "disease_ids" = some cs :=
  ⟨rfl, rfl, rfl, rfl, rfl⟩

/-- Claim C9: With categories `{Healthy, Disease}` and reference `Healthy`,
`SingleDESeq2` emits the feature label `log(1 / Healthy)` — line 237
recomputes `other` from the *integer* code array, so the label carries the
group code `1`, not the other category's label `Disease`. -/
theorem singleDESeq2_label_bug :
    (singleDESeq2Bind tblW metaW (some "Healthy") "depth").map
        SingleDESeq2Model.features = some ["log(1 / Healthy)"] ∧
    some ["log(1 / Healthy)"] ≠ some ["log(Disease / Healthy)"] := by
  decide

theorem leTransform_getElem? {x : List String} {r : String} {i : Nat}
    (h : leTransform x r = some i) : (leClasses x)[i]? = some r := by
  unfold leTransform at h
  split at h
  next hmem =>
    obtain rfl := Option.some.inj h
    exact getElem?_idxOf hmem
  next => cases h

/-- Claim C1: For `DiseaseSingle`'s `param_dict`: the disease, match-pair and
batch id arrays are the encoder's zero-based ids shifted by +1, so each has
minimum 1 over the observed categories, and the `reference` field is the
1-based index of the supplied reference label among the encoder's classes
(the label found at position `reference - 1` of `classes_` is the supplied
reference). -/
theorem diseaseSingle_one_based (tbl : CountTable) (meta : List SampleRow)
    (ref norm : String) (d : DiseaseParamDict)
    (h : diseaseSingleBind tbl meta ref norm = some d) :
    oneBasedIds d.disease_ids ∧ oneBasedIds d.cc_ids ∧ oneBasedIds d.batch_ids ∧
    1 ≤ d.reference ∧
    ∃ md, reindexMeta meta tbl.sampleIds = some md ∧
      d.disease_ids = (relabel (md.map SampleRow.category)).1.map (· + 1) ∧
      (leClasses (md.map SampleRow.category))[d.reference - 1]? = some ref := by
  simp only [diseaseSingleBind] at h
  rcases hr : reindexMeta meta tbl.sampleIds with _ | md
  · simp only [hr] at h
    cases h
  · simp only [hr] at h
    rcases hn : normalizationTotals tbl norm with e | ts
    · simp only [hn] at h
      cases h
    · simp only [hn] at h
      rcases ht : leTransform (md.map SampleRow.category) ref with _ | refIdx
      · simp only [ht] at h
        cases h
      · simp only [ht] at h
        obtain rfl := Option.some.inj h
        refine ⟨oneBased_relabelShift _, oneBased_relabelShift _,
          oneBased_relabelShift _, Nat.succ_le_succ (Nat.zero_le _),
          md, rfl, rfl, ?_⟩
        simpa using leTransform_getElem? ht

/-- Witness for C1 on `tblW` / `metaW` with reference `Healthy` (the classes
sort to `[Disease, Healthy]`, so the reference field is 2). -/
theorem diseaseSingle_one_based_witness :
    oneBasedIds dW.disease_ids ∧ oneBasedIds dW.cc_ids ∧ oneBasedIds dW.batch_ids ∧
    1 ≤ dW.reference ∧
    ∃ md, reindexMeta metaW tblW.sampleIds = some md ∧
      dW.disease_ids = (relabel (md.map SampleRow.category)).1.map (· + 1) ∧
      (leClasses (md.map SampleRow.category))[dW.reference - 1]? = some "Healthy" :=
  diseaseSingle_one_based tblW metaW "Healthy" "depth" dW (by decide)

/-- Claim C2, amended: Only `DiseaseSingle` reindexes the metadata to the
table's sample order before encoding, failing (pandas `KeyError`, the
spec's `AlignmentError`) when some table sample id has no metadata row;
`DESeq2` (and `SingleDESeq2`) never consult the table's sample ids, so
their bound arrays depend only on the metadata's own row order. -/
theorem alignment_behavior :
    (∀ (tbl : CountTable) (meta : List SampleRow) (ref norm : String),
        (∃ sid ∈ tbl.sampleIds, meta.find? (fun r => r.sampleId == sid) = none) →
        diseaseSingleBind tbl meta ref norm = none) ∧
    (∀ (tbl₁ tbl₂ : CountTable) (meta : List SampleRow) (refOpt : Option String)
        (norm : String) (d₁ d₂ : DESeq2Dict),
        deseq2Bind tbl₁ meta refOpt norm = some d₁ →
        deseq2Bind tbl₂ meta refOpt norm = some d₂ → d₁.M = d₂.M) := by
  constructor
  · rintro tbl meta ref norm ⟨sid, hmem, hfind⟩
    simp only [diseaseSingleBind, reindexMeta_eq_none hmem hfind]
  · intro tbl₁ tbl₂ meta refOpt norm d₁ d₂ h₁ h₂
    simp only [deseq2Bind] at h₁ h₂
    rcases ho : deseq2Other (meta.map SampleRow.category) refOpt with _ | o
    · simp only [ho] at h₁
      cases h₁
    · simp only [ho] at h₁ h₂
      rcases hrr : deseq2ResolveRef (meta.map SampleRow.category) refOpt with _ | r
      · simp only [hrr] at h₁
        cases h₁
      · simp only [hrr] at h₁ h₂
        rcases hn₁ : normalizationTotals tbl₁ norm with e | ts
        · simp only [hn₁] at h₁
          cases h₁
        · simp only [hn₁] at h₁
          rcases hn₂ : normalizationTotals tbl₂ norm with e | ts'
          · simp only [hn₂] at h₂
            cases h₂
          · simp only [hn₂] at h₂
            obtain rfl := Option.some.inj h₁
            obtain rfl := Option.some.inj h₂
            rfl

/-- Witness for C2: `tblMiss` contains sample id `sX` missing from `metaW`,
so `DiseaseSingle` fails; `DESeq2` binds `metaSwapped` to the same `M`
whether the table lists the samples as `[s1, s2]` or `[s2, s1]`. -/
theorem alignment_behavior_witness :
    diseaseSingleBind tblMiss metaW "Healthy" "depth" = none ∧ dSw.M = dSw.M :=
  ⟨alignment_behavior.1 tblMiss metaW "Healthy" "depth" ⟨"sX", by decide, by decide⟩,
   alignment_behavior.2 tblA tblB metaSwapped (some "catA") "depth" dSw dSw
     (by decide) (by decide)⟩

/-- Claim C2 counterexample: `DESeq2` does *not* reindex metadata to the
table's sample order: with table samples `[s1, s2]` and metadata rows in
order `[s2, s1]`, the bound `M` is `[2, 1]` (metadata row order), whereas
reindexing the metadata to the table's order first would give `[1, 2]`. -/
theorem deseq2_no_reindex_cex :
    (deseq2Bind tblA metaSwapped (some "catA") "depth").map DESeq2Dict.M
      = some [2, 1] ∧
    (reindexMeta metaSwapped tblA.sampleIds).map
      (fun md => deseq2M (md.map SampleRow.category) "catA") = some [1, 2] ∧
    ([2, 1] : List Nat) ≠ [1, 2] := by decide

/-- Claim C5, amended: When exactly two categories are observed and the
reference is one of them, `other = list(set(cats) - {reference})[0]`
deterministically yields the unique remaining category.  When more than two
categories are observed, no `ConfigurationError` is raised: the code
silently picks one of the remaining labels (whichever the set iteration
order puts first). -/
theorem two_group_other_resolution :
    (∀ (cats : List String) (ref : String), ref ∈ cats → cats.dedup.length = 2 →
        ∃ o, deseq2Other cats (some ref) = some o ∧ o ∈ cats ∧ o ≠ ref ∧
          ∀ c ∈ cats, c ≠ ref → c = o) ∧
    (∀ (cats : List String) (ref : String), ref ∈ cats → 2 < cats.dedup.length →
        ∃ o, deseq2Other cats (some ref) = some o) := by
  constructor
  · intro cats ref href h2
    obtain ⟨x, y, hxy⟩ := List.length_eq_two.mp h2
    have hnd := cats.nodup_dedup
    rw [hxy] at hnd
    have hxny : x ≠ y := by
      intro hEq
      subst hEq
      simp at hnd
    have hxmem : x ∈ cats := List.mem_dedup.mp (by rw [hxy]; simp)
    have hymem : y ∈ cats := List.mem_dedup.mp (by rw [hxy]; simp)
    have hrefd : ref ∈ cats.dedup := List.mem_dedup.mpr href
    rw [hxy] at hrefd
    simp only [List.mem_cons, List.mem_singleton, List.not_mem_nil, or_false] at hrefd
    rcases hrefd with hrx | hry
    · subst hrx
      refine ⟨y, ?_, hymem, fun hEq => hxny hEq.symm, ?_⟩
      · unfold deseq2Other
        rw [hxy]
        simp [List.filter, Ne.symm hxny]
      · intro c hc hcr
        have hcd : c ∈ cats.dedup := List.mem_dedup.mpr hc
        rw [hxy] at hcd
        simp only [List.mem_cons, List.mem_singleton, List.not_mem_nil, or_false] at hcd
        rcases hcd with h' | h'
        · exact absurd h' hcr
        · exact h'
    · subst hry
      refine ⟨x, ?_, hxmem, hxny, ?_⟩
      · unfold deseq2Other
        rw [hxy]
        simp [List.filter, hxny]
      · intro c hc hcr
        have hcd : c ∈ cats.dedup := List.mem_dedup.mpr hc
        rw [hxy] at hcd
        simp only [List.mem_cons, List.mem_singleton, List.not_mem_nil, or_false] at hcd
        rcases hcd with h' | h'
        · exact h'
        · exact absurd h' hcr
  · intro cats ref href h3
    rcases hfe : cats.dedup.filter (fun c => decide (some c ≠ some ref)) with _ | ⟨o, rest⟩
    · exfalso
      have hall := List.filter_eq_nil_iff.mp hfe
      have hallEq : ∀ c ∈ cats.dedup, c = ref := by
        intro c hc
        have := hall c hc
        simpa using this
      rcases hdd : cats.dedup with _ | ⟨a, _ | ⟨b, t⟩⟩
      · rw [hdd] at h3
        simp at h3
      · rw [hdd] at h3
        simp at h3
      · have hnd := cats.nodup_dedup
        rw [hdd] at hnd
        have ha := hallEq a (by rw [hdd]; simp)
        have hb := hallEq b (by rw [hdd]; simp)
        rw [List.nodup_cons] at hnd
        exact hnd.1 (by rw [ha, hb]; exact List.mem_cons_self _ _)
    · exact ⟨o, by unfold deseq2Other; rw [hfe]; rfl⟩

/-- Witness for C5: with categories `[a, b]` and reference `a` the unique
remaining label is resolved; with `[a, b, c]` and reference `a` some label
is still silently resolved. -/
theorem two_group_other_resolution_witness :
    (∃ o, deseq2Other ["a", "b"] (some "a") = some o ∧ o ∈ ["a", "b"] ∧ o ≠ "a" ∧
        ∀ c ∈ ["a", "b"], c ≠ "a" → c = o) ∧
    (∃ o, deseq2Other ["a", "b", "c"] (some "a") = some o) :=
  ⟨two_group_other_resolution.1 ["a", "b"] "a" (by decide) (by decide),
   two_group_other_resolution.2 ["a", "b", "c"] "a" (by decide) (by decide)⟩

/-- Claim C5 counterexample: Three distinct categories `{a, b, c}` are
observed, yet `DESeq2` binding raises no `ConfigurationError`: it
succeeds, silently picking a non-reference label. -/
theorem deseq2_three_categories_cex :
    (deseq2Bind tbl3 meta3 (some "a") "depth").isSome = true := by decide

/-- Claim C6, amended: `DiseaseSingle` rejects a reference label absent from
the observed categories (`LabelEncoder.transform` raises, so construction
fails); `DESeq2` (and `SingleDESeq2`) do not fail — they silently encode
every sample as the non-reference group, `M = [2, 2, ...]`. -/
theorem absent_reference_behavior :
    (∀ (tbl : CountTable) (meta : List SampleRow) (ref : String)
        (md : List SampleRow),
        reindexMeta meta tbl.sampleIds = some md →
        ref ∉ md.map SampleRow.category →
        diseaseSingleBind tbl meta ref "depth" = none) ∧
    (∀ (tbl : CountTable) (meta : List SampleRow) (r norm : String)
        (d : DESeq2Dict),
        r ∉ meta.map SampleRow.category →
        deseq2Bind tbl meta (some r) norm = some d →
        d.M = List.replicate meta.length 2) := by
  constructor
  · intro tbl meta ref md hmd habs
    simp only [diseaseSingleBind, hmd, normalizationTotals_depth,
      leTransform_eq_none habs]
  · intro tbl meta r norm d habs h
    simp only [deseq2Bind, deseq2ResolveRef] at h
    rcases ho : deseq2Other (meta.map SampleRow.category) (some r) with _ | o
    · simp only [ho] at h
      cases h
    · simp only [ho] at h
      rcases hn : normalizationTotals tbl norm with e | ts
      · simp only [hn] at h
        cases h
      · simp only [hn] at h
        obtain rfl := Option.some.inj h
        show deseq2M (meta.map SampleRow.category) r = _
        have hcongr : ∀ c ∈ meta.map SampleRow.category,
            (if c ≠ r then 1 else 0) + 1 = (2 : Nat) := by
          intro c hc
          have hcr : c ≠ r := fun hEq => habs (hEq ▸ hc)
          simp [hcr]
        calc deseq2M (meta.map SampleRow.category) r
            = (meta.map SampleRow.category).map (fun _ => 2) :=
              List.map_congr_left hcongr
          _ = List.replicate meta.length 2 := by
              rw [List.map_const', List.length_map]

/-- Witness for C6: `Zebra` is absent from `metaW`'s categories, so
`DiseaseSingle` fails; on `metaSwapped`, `DESeq2` succeeds with every
sample coded 2. -/
theorem absent_reference_behavior_witness :
    diseaseSingleBind tblW metaW "Zebra" "depth" = none ∧
    dAbs.M = List.replicate metaSwapped.length 2 :=
  ⟨absent_reference_behavior.1 tblW metaW "Zebra" metaW (by decide) (by decide),
   absent_reference_behavior.2 tblA metaSwapped "Zebra" "depth" dAbs
     (by decide) (by decide)⟩

/-- Claim C6 counterexample: With reference `Zebra`, absent from the observed
categories `{catB, catA}`, `DESeq2` construction does not fail: it returns
a dictionary with every sample silently coded as non-reference. -/
theorem deseq2_absent_reference_cex :
    (deseq2Bind tblA metaSwapped (some "Zebra") "depth").map DESeq2Dict.M
      = some [2, 2] := by decide

/-- Claim C10: In every successful two-group binding, `M` has one entry per
metadata row, and a row's code is 1 exactly when its category equals the
resolved reference label, 2 otherwise. -/
theorem deseq2_group_codes (tbl : CountTable) (meta : List SampleRow)
    (refOpt : Option String) (norm : String) (d : DESeq2Dict)
    (h : deseq2Bind tbl meta refOpt norm = some d) :
    ∃ ref, deseq2ResolveRef (meta.map SampleRow.category) refOpt = some ref ∧
      d.M.length = meta.length ∧
      ∀ i, i < meta.length →
        ∃ c, (meta.map SampleRow.category)[i]? = some c ∧
          d.M[i]? = some (if c = ref then 1 else 2) := by
  simp only [deseq2Bind] at h
  rcases ho : deseq2Other (meta.map SampleRow.category) refOpt with _ | o
  · simp only [ho] at h
    cases h
  · simp only [ho] at h
    rcases hrr : deseq2ResolveRef (meta.map SampleRow.category) refOpt with _ | r
    · simp only [hrr] at h
      cases h
    · simp only [hrr] at h
      rcases hn : normalizationTotals tbl norm with e | ts
      · simp only [hn] at h
        cases h
      · simp only [hn] at h
        obtain rfl := Option.some.inj h
        refine ⟨r, rfl, by simp [deseq2M], ?_⟩
        intro i hi
        have hi' : i < (meta.map SampleRow.category).length := by simpa using hi
        refine ⟨(meta.map SampleRow.category)[i], List.getElem?_eq_getElem hi', ?_⟩
        show (deseq2M (meta.map SampleRow.category) r)[i]? = _
        rw [deseq2M, List.getElem?_map, List.getElem?_eq_getElem hi']
        simp only [List.getElem_map, Option.map_some']
        by_cases hc : meta[i].category = r <;> simp [hc]

/-- Witness for C10 on `tblW` / `metaW` with reference `Healthy`:
`M = [1, 2]`. -/
theorem deseq2_group_codes_witness :
    ∃ ref, deseq2ResolveRef (metaW.map SampleRow.category) (some "Healthy") = some ref ∧
      dDW.M.length = metaW.length ∧
      ∀ i, i < metaW.length →
        ∃ c, (metaW.map SampleRow.category)[i]? = some c ∧
          dDW.M[i]? = some (if c = ref then 1 else 2) :=
  deseq2_group_codes tblW metaW (some "Healthy") "depth" dDW (by decide)
